import Mathlib

/-!
Shallow embedding of src/Roman_Numeral_Converter.py.

Python strings are embedded as lists of characters (PyStr); Python integers
as Lean Int; Python exceptions as an explicit error type PyErr returned
through Except.  Dictionaries with a fixed key set are embedded as Lean
functions or structures.  All recursion is structural (loops whose Python
termination argument is numeric take an explicit iteration bound that the
call site instantiates with a provably sufficient value), so every
definition evaluates inside the kernel.
-/

set_option maxRecDepth 40000
set_option maxHeartbeats 8000000

/-- A Python string, as its sequence of characters. -/
abbrev PyStr := List Char

/-- The Python exceptions raised by the program, named after the spec:
InvalidSymbol is the KeyError from the roman-values dictionary lookup,
OutOfRange is the ValueError for a decimal outside 1..3999,
UnknownConversionType is the ValueError for a conversion type that is not
a key of the factory dictionary, TypeError models Python's dynamic type
errors (e.g. reversing an int), and ValueError models the unpacking error
in load_from_txt when a split does not yield exactly two parts. -/
inductive PyErr where
  | invalidSymbol
  | outOfRange
  | unknownConversionType
  | typeError
  | valueError
deriving DecidableEq, Repr

/-- A dynamically typed Python value as used by the program: a string or
an integer. -/
inductive Value where
  | vstr (s : PyStr)
  | vint (n : Int)
deriving DecidableEq, Repr

/-- Python str() on a value: identity on strings, decimal representation
(with a leading minus sign when negative) on integers. -/
def pythonStr : Value → PyStr
  | .vstr s => s
  | .vint n => if n < 0 then '-' :: Nat.toDigits 10 (-n).toNat else Nat.toDigits 10 n.toNat

namespace RomanToDecimalConverter

/-- The class attribute _roman_values, a dictionary from symbol to value;
lookup returns none exactly when Python raises KeyError. -/
def roman_values (c : Char) : Option Nat :=
  if c = 'I' then some 1
  else if c = 'V' then some 5
  else if c = 'X' then some 10
  else if c = 'L' then some 50
  else if c = 'C' then some 100
  else if c = 'D' then some 500
  else if c = 'M' then some 1000
  else none

/-- The body of the for-loop of RomanToDecimalConverter.convert: the list
argument is the (already reversed) remaining characters, the accumulators
are the running total and the previously seen symbol value (prev_value,
initially 0).  A failed dictionary lookup aborts with InvalidSymbol
(Python: KeyError). -/
def loop : List Char → Int → Int → Except PyErr Int
  | [], total, _ => .ok total
  | c :: rest, total, prev =>
    match roman_values c with
    | none => .error .invalidSymbol
    | some value =>
        loop rest (if (value : Int) < prev then total - (value : Int) else total + (value : Int)) (value : Int)

/-- RomanToDecimalConverter.convert: iterate over reversed(roman) with
total = 0 and prev_value = 0. -/
def convert (roman : PyStr) : Except PyErr Int :=
  loop roman.reverse 0 0

end RomanToDecimalConverter

namespace DecimalToRomanConverter

/-- The class attribute _value_map: the fixed descending table of
(value, numeral) pairs. -/
def value_map : List (Nat × PyStr) :=
  [(1000, ['M']), (900, ['C', 'M']), (500, ['D']), (400, ['C', 'D']),
   (100, ['C']), (90, ['X', 'C']), (50, ['L']), (40, ['X', 'L']),
   (10, ['X']), (9, ['I', 'X']), (5, ['V']), (4, ['I', 'V']), (1, ['I'])]

/-- The inner while-loop of DecimalToRomanConverter.convert
(while num >= value: result.append(numeral); num -= value), returning the
emitted characters and the remaining num.  The first argument bounds the
number of iterations; every table value is at least 1, so num iterations
always suffice and the bound never cuts the loop short at the call site
below, which passes the current num. -/
def whileGe : Nat → Nat → PyStr → Nat → PyStr × Nat
  | 0, _, _, num => ([], num)
  | fuel + 1, value, numeral, num =>
    if value ≤ num then
      let p := whileGe fuel value numeral (num - value)
      (numeral ++ p.1, p.2)
    else ([], num)

/-- The outer for-loop of DecimalToRomanConverter.convert over the value
map; the pieces appended by the inner loops are concatenated in order,
exactly as the final ''.join(result) does. -/
def go : List (Nat × PyStr) → Nat → PyStr
  | [], _ => []
  | (value, numeral) :: rest, num =>
    let p := whileGe num value numeral num
    p.1 ++ go rest p.2

/-- DecimalToRomanConverter.convert: range check (raise ValueError /
OutOfRange unless 0 < num < 4000), then the greedy table loop.  After the
check num is a positive integer, embedded as a Nat for the loop. -/
def convert (num : Int) : Except PyErr PyStr :=
  if 0 < num ∧ num < 4000 then .ok (go value_map num.toNat) else .error .outOfRange

end DecimalToRomanConverter

/-- Decidable equality for Except values, so that concrete runs of the
embedded functions can be checked by decide. -/
instance {ε α : Type} [DecidableEq ε] [DecidableEq α] : DecidableEq (Except ε α)
  | .error e, .error f =>
    if h : e = f then .isTrue (by rw [h]) else .isFalse (by simp [h])
  | .error _, .ok _ => .isFalse (by simp)
  | .ok _, .error _ => .isFalse (by simp)
  | .ok a, .ok b =>
    if h : a = b then .isTrue (by rw [h]) else .isFalse (by simp [h])

/-- Boolean exhaustive check used for the codec round trip: decimal to
roman and back returns the input. -/
def roundTripOk (n : Nat) : Bool :=
  match DecimalToRomanConverter.convert (n : Int) with
  | .ok s =>
    match RomanToDecimalConverter.convert s with
    | .ok m => m == (n : Int)
    | .error _ => false
  | .error _ => false

/-- Conjunction of roundTripOk over count consecutive integers starting
at start, one chunk of the exhaustive check. -/
def checkRange : Nat → Nat → Bool
  | _, 0 => true
  | start, count + 1 => roundTripOk start && checkRange (start + 1) count

/-- A conversion record: the dictionary appended by
ConversionHistory.add_record, with keys input, output and type (the field
is called rtype here because type is a Lean keyword). -/
structure PyRecord where
  input : Value
  output : Value
  rtype : Value
deriving DecidableEq, Repr

namespace ConversionHistory

/-- ConversionHistory.add_record: append one record dictionary at the end
of the _history list. -/
def add_record (h : List PyRecord) (from_val to_val direction : Value) : List PyRecord :=
  h ++ [{ input := from_val, output := to_val, rtype := direction }]

/-- ConversionHistory.get_history: returns _history.copy(); at the level
of record values the copy is the same sequence. -/
def get_history (h : List PyRecord) : List PyRecord := h

end ConversionHistory

/-- The two converter objects held by the singleton factory dictionary. -/
inductive ConverterKind where
  | romanToDecimal
  | decimalToRoman
deriving DecidableEq, Repr

/-- ConverterFactory.get_converter: self.converters.get(converter_type),
a dictionary with exactly the keys roman and decimal; any other key gives
none (Python None). -/
def ConverterFactory.get_converter (converter_type : PyStr) : Option ConverterKind :=
  if converter_type = "roman".data then some .romanToDecimal
  else if converter_type = "decimal".data then some .decimalToRoman
  else none

/-- Dynamic dispatch of converter.convert(value) on a Python value.  The
roman converter iterates over its argument, which raises TypeError on an
int; the decimal converter compares its argument with ints, which raises
TypeError on a str. -/
def NumeralConverter.convertValue : ConverterKind → Value → Except PyErr Value
  | .romanToDecimal, .vstr s => (RomanToDecimalConverter.convert s).map .vint
  | .romanToDecimal, .vint _ => .error .typeError
  | .decimalToRoman, .vint n => (DecimalToRomanConverter.convert n).map .vstr
  | .decimalToRoman, .vstr _ => .error .typeError

/-- ConversionSystem.convert: look the converter up in the factory (raise
for an unknown conversion type), run it, then record the conversion with
the direction tag chosen by the final if/else; when the converter raises,
the exception propagates before add_record runs, so the history is
unchanged. -/
def ConversionSystem.convert (value : Value) (conversion_type : PyStr)
    (history : List PyRecord) : Except PyErr Value × List PyRecord :=
  match ConverterFactory.get_converter conversion_type with
  | none => (.error .unknownConversionType, history)
  | some k =>
    match NumeralConverter.convertValue k value with
    | .error e => (.error e, history)
    | .ok result =>
      if conversion_type = "roman".data then
        (.ok result, ConversionHistory.add_record history value result (.vstr "roman".data))
      else
        (.ok result, ConversionHistory.add_record history value result (.vstr "decimal".data))

/-- One row of the CSV file, with the three named fields written by
csv.DictWriter (fieldnames input, output, type). -/
structure CsvRow where
  input : PyStr
  output : PyStr
  rtype : PyStr
deriving DecidableEq, Repr

/-- ConversionSystem.save_to_csv.  The csv module is Python's standard
library, external to this repository; it is modelled by its documented
contract at the row level: DictWriter renders every field with str() and
writes one row per record after the header, and DictReader returns each
data row as strings keyed by the header.  The file is therefore embedded
as its list of data rows. -/
def ConversionSystem.save_to_csv (history : List PyRecord) : List CsvRow :=
  history.map (fun r =>
    { input := pythonStr r.input, output := pythonStr r.output, rtype := pythonStr r.rtype })

/-- ConversionSystem.load_from_csv on an existing file: for each row,
add_record(row[input], row[output], row[type]); the row values read back
from the file are strings. -/
def ConversionSystem.load_from_csv (rows : List CsvRow) (history : List PyRecord) : List PyRecord :=
  rows.foldl (fun h row =>
    ConversionHistory.add_record h (.vstr row.input) (.vstr row.output) (.vstr row.rtype)) history

/-- The literal direction label written for records whose type equals
the string roman. -/
def labelRoman : PyStr := "Roman→Decimal".data

/-- The literal direction label written for every other record type. -/
def labelDecimal : PyStr := "Decimal→Roman".data

/-- The separator between input and output in a TXT line. -/
def sepArrow : PyStr := " → ".data

/-- The separator between output and direction label in a TXT line. -/
def sepParen : PyStr := " (".data

/-- The string literal roman. -/
def romanTag : PyStr := "roman".data

/-- The string literal decimal. -/
def decimalTag : PyStr := "decimal".data

/-- The two banner lines written at the top of the TXT file. -/
def txtHeader : PyStr := "Conversion History:\n==================\n".data

/-- The direction label chosen by save_to_txt:
record[type] == roman selects the Roman→Decimal label, anything else the
Decimal→Roman label (Python == between a non-string value and a string is
False). -/
def directionLabel (r : PyRecord) : PyStr :=
  if r.rtype = Value.vstr romanTag then labelRoman else labelDecimal

/-- One line of the TXT file, the f-string
{input} → {output} ({direction}) followed by a newline; the f-string
renders each field with str(). -/
def recordTxtLine (r : PyRecord) : PyStr :=
  pythonStr r.input ++ sepArrow ++ pythonStr r.output ++ sepParen ++ directionLabel r ++ [')', '\n']

/-- ConversionSystem.save_to_txt: the banner followed by one line per
record; the file is embedded as its full character content. -/
def ConversionSystem.save_to_txt (history : List PyRecord) : PyStr :=
  txtHeader ++ (history.map recordTxtLine).flatten

/-- Python substring membership (needle in haystack): some contiguous run
of the haystack equals the needle; the empty needle is contained in every
string. -/
def containsSub (needle : PyStr) : PyStr → Bool
  | [] => needle.isEmpty
  | c :: rest => needle.isPrefixOf (c :: rest) || containsSub needle rest

/-- Python str.isspace, the character set that str.strip with no
argument removes: the ASCII whitespace characters, the file/group/
record/unit separators U+001C to U+001F, next line U+0085, no-break
space U+00A0, ogham space mark U+1680, the U+2000 to U+200A spaces, the
line and paragraph separators U+2028 and U+2029, narrow no-break space
U+202F, medium mathematical space U+205F and ideographic space
U+3000. -/
def pyIsSpace (c : Char) : Bool :=
  c == ' ' || c == '\t' || c == '\n' || c == '\x0b' || c == '\x0c' || c == '\r' ||
  c == '\x1c' || c == '\x1d' || c == '\x1e' || c == '\x1f' ||
  c == '\x85' || c == '\xa0' || c == '\u1680' ||
  ('\u2000' ≤ c && c ≤ '\u200A') ||
  c == '\u2028' || c == '\u2029' || c == '\u202F' || c == '\u205F' || c == '\u3000'

/-- Python str.strip(): drop whitespace from both ends. -/
def pyStrip (s : PyStr) : PyStr :=
  ((s.dropWhile pyIsSpace).reverse.dropWhile pyIsSpace).reverse

/-- Python str.rstrip(ch): drop every trailing occurrence of ch. -/
def pyRstripChar (ch : Char) (s : PyStr) : PyStr :=
  (s.reverse.dropWhile (fun c => c == ch)).reverse

/-- Python str.split(sep) for a nonempty separator: scan left to right,
cutting at each non-overlapping occurrence of the separator.  The first
argument bounds the number of scanned characters; every step consumes at
least one character, so the call site passes the string length and the
bound is never reached. -/
def pySplitAux (sep : PyStr) : Nat → PyStr → PyStr → List PyStr
  | _, [], acc => [acc.reverse]
  | 0, s, acc => [acc.reverse ++ s]
  | fuel + 1, c :: rest, acc =>
    if sep.isPrefixOf (c :: rest) then
      acc.reverse :: pySplitAux sep fuel (List.drop sep.length (c :: rest)) []
    else pySplitAux sep fuel rest (c :: acc)

/-- Python str.split(sep) for a nonempty separator. -/
def pySplit (sep s : PyStr) : List PyStr :=
  pySplitAux sep s.length s []

/-- The body of the for-loop of ConversionSystem.load_from_txt on one
line of the file: skip lines without an arrow, strip and split the line
at the arrow separator (skipping it unless that yields exactly two
parts), split the right part at the parenthesis separator (the unguarded
two-variable unpacking raises ValueError unless that yields exactly two
parts), strip trailing parentheses from the label, then append a record —
with input and output in the written order when the label contains
Roman→Decimal, and swapped otherwise. -/
def processTxtLine (h : List PyRecord) (line : PyStr) : Except PyErr (List PyRecord) :=
  if containsSub ['→'] line then
    match pySplit sepArrow (pyStrip line) with
    | [input_val, rest] =>
      match pySplit sepParen rest with
      | [output_val, conv_type0] =>
        let conv_type := pyRstripChar ')' conv_type0
        if containsSub labelRoman conv_type then
          .ok (ConversionHistory.add_record h (.vstr input_val) (.vstr output_val) (.vstr romanTag))
        else
          .ok (ConversionHistory.add_record h (.vstr output_val) (.vstr input_val) (.vstr decimalTag))
      | _ => .error .valueError
    | _ => .ok h
  else .ok h

/-- The for-loop of load_from_txt over the lines of the file; a raised
ValueError aborts the loop and propagates. -/
def loadTxtGo : List PyStr → List PyRecord → Except PyErr (List PyRecord)
  | [], h => .ok h
  | line :: rest, h =>
    match processTxtLine h line with
    | .ok h2 => loadTxtGo rest h2
    | .error e => .error e

/-- Python iteration over the lines of a file: cut after every newline
character, keeping the newline at the end of each line; a final segment
without a newline is a line too, and the empty file has no lines. -/
def pyLinesGo : PyStr → PyStr → List PyStr
  | [], acc => if acc.isEmpty then [] else [acc.reverse]
  | c :: rest, acc =>
    if c == '\n' then (acc.reverse ++ ['\n']) :: pyLinesGo rest []
    else pyLinesGo rest (c :: acc)

/-- The lines of a file content, as Python file iteration yields them. -/
def pyLines (s : PyStr) : List PyStr := pyLinesGo s []

/-- ConversionSystem.load_from_txt on an existing file, embedded over the
full character content of the file. -/
def ConversionSystem.load_from_txt (content : PyStr) (history : List PyRecord) :
    Except PyErr (List PyRecord) :=
  loadTxtGo (pyLines content) history

/-- The record an input record comes back as after a TXT save and load:
unchanged apart from str() on its fields when its type is roman, fields
swapped (and str() applied) otherwise. -/
def txtReload (r : PyRecord) : PyRecord :=
  if r.rtype = Value.vstr romanTag then
    { input := .vstr (pythonStr r.input), output := .vstr (pythonStr r.output), rtype := .vstr romanTag }
  else
    { input := .vstr (pythonStr r.output), output := .vstr (pythonStr r.input), rtype := .vstr decimalTag }

/-- A record with every field replaced by its str() image; this is what a
record comes back as after a CSV save and load. -/
def recordStr (r : PyRecord) : PyRecord :=
  { input := .vstr (pythonStr r.input),
    output := .vstr (pythonStr r.output),
    rtype := .vstr (pythonStr r.rtype) }

/-- A string that the TXT line format represents faithfully: nonempty and
free of the whitespace characters that line splitting and stripping act
on (separator matches inside a field need a space, so this also rules
them out). -/
abbrev SafeStr (s : PyStr) : Prop :=
  s ≠ [] ∧ ∀ c ∈ s, pyIsSpace c = false

/-- A record whose TXT line parses back: string input and output fields
that the line format represents faithfully, and one of the two direction
tags as its type. -/
abbrev SafeRecord (r : PyRecord) : Prop :=
  (∃ s, r.input = .vstr s ∧ SafeStr s) ∧
  (∃ s, r.output = .vstr s ∧ SafeStr s) ∧
  (r.rtype = .vstr romanTag ∨ r.rtype = .vstr decimalTag)

/-- Reference-level model of ConversionHistory for the aliasing
behaviour of get_history: the record dictionaries live in a store (the
Python heap, addresses are allocation order) and the _history list holds
their addresses.  get_history returns _history.copy(), a fresh list of
the same addresses: list-level changes to the copy cannot reach the
ledger, but the record dictionaries themselves are shared. -/
structure ConversionHistoryObj where
  store : List PyRecord
  hist : List Nat
deriving DecidableEq, Repr

namespace ConversionHistoryObj

/-- A fresh ConversionHistory (empty store, empty _history). -/
def empty : ConversionHistoryObj := { store := [], hist := [] }

/-- add_record at the reference level: allocate the record dictionary and
append its address to _history. -/
def add_record (s : ConversionHistoryObj) (from_val to_val direction : Value) :
    ConversionHistoryObj :=
  { store := s.store ++ [{ input := from_val, output := to_val, rtype := direction }],
    hist := s.hist ++ [s.store.length] }

/-- get_history at the reference level: the copied list holds the same
addresses as _history. -/
def get_history (s : ConversionHistoryObj) : List Nat := s.hist

/-- Read the records a list of addresses points to. -/
def deref (s : ConversionHistoryObj) (addrs : List Nat) : List PyRecord :=
  addrs.map (fun a => s.store.getD a { input := .vstr [], output := .vstr [], rtype := .vstr [] })

/-- Mutate the record dictionary at an address (Python: assigning to a
key of a record obtained from a snapshot). -/
def setRecord (s : ConversionHistoryObj) (a : Nat) (r : PyRecord) : ConversionHistoryObj :=
  { s with store := s.store.set a r }

/-- Append a list of records through add_record. -/
def appendAll (s : ConversionHistoryObj) (rs : List PyRecord) : ConversionHistoryObj :=
  rs.foldl (fun st r => add_record st r.input r.output r.rtype) s

end ConversionHistoryObj


/-! ## Theorems -/

/-- Helper: the loop of RomanToDecimalConverter.convert fails (with
InvalidSymbol) exactly when some remaining character is not a key of the
value dictionary. -/
theorem romanLoop_error_iff (l : List Char) :
    ∀ (total prev : Int),
      RomanToDecimalConverter.loop l total prev = .error .invalidSymbol
        ↔ ∃ c ∈ l, RomanToDecimalConverter.roman_values c = none := by
  induction l with
  | nil => intro total prev; simp [RomanToDecimalConverter.loop]
  | cons c rest ih =>
    intro total prev
    cases hv : RomanToDecimalConverter.roman_values c with
    | none =>
      simp only [RomanToDecimalConverter.loop, hv]
      constructor
      · intro _; exact ⟨c, List.mem_cons_self c rest, hv⟩
      · intro _; trivial
    | some v =>
      simp only [RomanToDecimalConverter.loop, hv]
      rw [ih]
      constructor
      · rintro ⟨d, hd, hnone⟩; exact ⟨d, List.mem_cons_of_mem c hd, hnone⟩
      · rintro ⟨d, hd, hnone⟩
        rcases List.mem_cons.mp hd with h | h
        · subst h; rw [hv] at hnone; exact absurd hnone (by simp)
        · exact ⟨d, h, hnone⟩

/-- Helper: the loop of RomanToDecimalConverter.convert succeeds exactly
when every remaining character is a key of the value dictionary. -/
theorem romanLoop_ok_iff (l : List Char) :
    ∀ (total prev : Int),
      (∃ n, RomanToDecimalConverter.loop l total prev = .ok n)
        ↔ ∀ c ∈ l, RomanToDecimalConverter.roman_values c ≠ none := by
  induction l with
  | nil => intro total prev; simp [RomanToDecimalConverter.loop]
  | cons c rest ih =>
    intro total prev
    cases hv : RomanToDecimalConverter.roman_values c with
    | none =>
      simp only [RomanToDecimalConverter.loop, hv]
      constructor
      · rintro ⟨n, hn⟩; cases hn
      · intro hall; exact absurd hv (hall c (List.mem_cons_self c rest))
    | some v =>
      simp only [RomanToDecimalConverter.loop, hv]
      rw [ih]
      constructor
      · intro hall d hd
        rcases List.mem_cons.mp hd with h | h
        · subst h; rw [hv]; simp
        · exact hall d h
      · intro hall d hd; exact hall d (List.mem_cons_of_mem c hd)

/-- Helper: a character is a key of the roman-values dictionary exactly
when it is one of the seven roman symbols. -/
theorem roman_values_none_iff (c : Char) :
    RomanToDecimalConverter.roman_values c = none
      ↔ c ∉ (['I', 'V', 'X', 'L', 'C', 'D', 'M'] : List Char) := by
  unfold RomanToDecimalConverter.roman_values
  split_ifs with h1 h2 h3 h4 h5 h6 h7 <;>
    simp_all [List.mem_cons, List.not_mem_nil]

/-- Claim C6: romanToDecimal fails with InvalidSymbol if and only if the
input contains a character outside the seven roman symbols, and succeeds
with an integer on every string over those symbols. -/
theorem romanToDecimal_invalidSymbol_iff (s : PyStr) :
    (RomanToDecimalConverter.convert s = .error .invalidSymbol
       ↔ ∃ c ∈ s, c ∉ (['I', 'V', 'X', 'L', 'C', 'D', 'M'] : List Char))
    ∧ ((∃ n, RomanToDecimalConverter.convert s = .ok n)
       ↔ ∀ c ∈ s, c ∈ (['I', 'V', 'X', 'L', 'C', 'D', 'M'] : List Char)) := by
  constructor
  · rw [RomanToDecimalConverter.convert, romanLoop_error_iff]
    constructor
    · rintro ⟨c, hc, hnone⟩
      exact ⟨c, List.mem_reverse.mp hc, (roman_values_none_iff c).mp hnone⟩
    · rintro ⟨c, hc, hout⟩
      exact ⟨c, List.mem_reverse.mpr hc, (roman_values_none_iff c).mpr hout⟩
  · rw [RomanToDecimalConverter.convert, romanLoop_ok_iff]
    constructor
    · intro hall c hc
      by_contra hout
      exact hall c (List.mem_reverse.mpr hc) ((roman_values_none_iff c).mpr hout)
    · intro hall c hc hnone
      exact absurd ((roman_values_none_iff c).mp hnone) (by simp [hall c (List.mem_reverse.mp hc)])

/-- Witness for C6 at concrete inputs: the string q fails with an invalid
symbol, and the string XIV evaluates to an integer. -/
theorem romanToDecimal_invalidSymbol_iff_witness :
    RomanToDecimalConverter.convert ['q'] = .error .invalidSymbol
    ∧ (∃ n, RomanToDecimalConverter.convert "XIV".data = .ok n) := by
  constructor
  · exact (romanToDecimal_invalidSymbol_iff ['q']).1.mpr ⟨'q', by decide, by decide⟩
  · exact (romanToDecimal_invalidSymbol_iff "XIV".data).2.mpr (by decide)

/-- Claim C10: on the empty string, romanToDecimal does not fail and
returns 0, a value outside the range 1..3999. -/
theorem romanToDecimal_empty_string :
    RomanToDecimalConverter.convert [] = .ok 0 ∧ ¬ (1 ≤ (0 : Int) ∧ (0 : Int) ≤ 3999) := by
  exact ⟨rfl, by decide⟩

/-- Claim C7: romanToDecimal computes the right-to-left
additive/subtractive value with no canonical-form validation: one loop
step subtracts a symbol value strictly smaller than the previously seen
one and adds it otherwise, IIII is accepted as 4, and MCMXCIV is 1994. -/
theorem romanToDecimal_additive_subtractive :
    RomanToDecimalConverter.convert "IIII".data = .ok 4
    ∧ RomanToDecimalConverter.convert "MCMXCIV".data = .ok 1994
    ∧ ∀ (c : Char) (rest : List Char) (total prev : Int) (v : Nat),
        RomanToDecimalConverter.roman_values c = some v →
        RomanToDecimalConverter.loop (c :: rest) total prev
          = RomanToDecimalConverter.loop rest
              (if (v : Int) < prev then total - (v : Int) else total + (v : Int)) (v : Int) := by
  refine ⟨by decide, by decide, ?_⟩
  intro c rest total prev v hv
  simp [RomanToDecimalConverter.loop, hv]

/-- Witness for C7: one loop step on the symbol I with previous value 0
adds 1. -/
theorem romanToDecimal_additive_subtractive_witness :
    RomanToDecimalConverter.loop ['I'] 0 0
      = RomanToDecimalConverter.loop []
          (if ((1 : Nat) : Int) < 0 then 0 - ((1 : Nat) : Int) else 0 + ((1 : Nat) : Int))
          ((1 : Nat) : Int) :=
  romanToDecimal_additive_subtractive.2.2 'I' [] 0 0 1 rfl

/-- Claim C5: decimalToRoman fails, with OutOfRange, exactly on inputs
outside 1..3999 (in particular at 0 and 4000) and returns a string on
every input inside the range. -/
theorem decimalToRoman_range :
    (∀ n : Int,
       (DecimalToRomanConverter.convert n = .error .outOfRange ↔ (n ≤ 0 ∨ 4000 ≤ n))
       ∧ ((∃ s, DecimalToRomanConverter.convert n = .ok s) ↔ (0 < n ∧ n < 4000)))
    ∧ DecimalToRomanConverter.convert 0 = .error .outOfRange
    ∧ DecimalToRomanConverter.convert 4000 = .error .outOfRange := by
  refine ⟨?_, by decide, by decide⟩
  intro n
  unfold DecimalToRomanConverter.convert
  by_cases h : 0 < n ∧ n < 4000
  · rw [if_pos h]
    constructor
    · constructor
      · intro hok; cases hok
      · intro habs; omega
    · constructor
      · intro _; exact h
      · intro _; exact ⟨_, rfl⟩
  · rw [if_neg h]
    constructor
    · constructor
      · intro _; omega
      · intro _; rfl
    · constructor
      · rintro ⟨s, hs⟩; cases hs
      · intro hin; exact absurd hin h

/-- Witness for C5 at concrete inputs: 1994 is accepted, minus one is
rejected with OutOfRange. -/
theorem decimalToRoman_range_witness :
    (∃ s, DecimalToRomanConverter.convert 1994 = .ok s)
    ∧ DecimalToRomanConverter.convert (-1) = .error .outOfRange := by
  constructor
  · exact ((decimalToRoman_range.1 1994).2).mpr (by decide)
  · exact ((decimalToRoman_range.1 (-1)).1).mpr (by decide)

/-- Helper: a passed chunk of the exhaustive check covers every index in
its range. -/
theorem checkRange_spec :
    ∀ count start, checkRange start count = true →
      ∀ n, start ≤ n → n < start + count → roundTripOk n = true := by
  intro count
  induction count with
  | zero => intro start _ n h1 h2; omega
  | succ k ih =>
    intro start hall n h1 h2
    have hsplit : roundTripOk start = true ∧ checkRange (start + 1) k = true := by
      simpa [checkRange, Bool.and_eq_true] using hall
    by_cases hn : n = start
    · subst hn; exact hsplit.1
    · exact ih (start + 1) hsplit.2 n (by omega) (by omega)

/-- Helper: chunk 1 of the exhaustive round-trip check. -/
theorem checkRange_chunk1 : checkRange 1 500 = true := by decide

/-- Helper: chunk 2 of the exhaustive round-trip check. -/
theorem checkRange_chunk2 : checkRange 501 500 = true := by decide

/-- Helper: chunk 3 of the exhaustive round-trip check. -/
theorem checkRange_chunk3 : checkRange 1001 500 = true := by decide

/-- Helper: chunk 4 of the exhaustive round-trip check. -/
theorem checkRange_chunk4 : checkRange 1501 500 = true := by decide

/-- Helper: chunk 5 of the exhaustive round-trip check. -/
theorem checkRange_chunk5 : checkRange 2001 500 = true := by decide

/-- Helper: chunk 6 of the exhaustive round-trip check. -/
theorem checkRange_chunk6 : checkRange 2501 500 = true := by decide

/-- Helper: chunk 7 of the exhaustive round-trip check. -/
theorem checkRange_chunk7 : checkRange 3001 500 = true := by decide

/-- Helper: chunk 8 of the exhaustive round-trip check. -/
theorem checkRange_chunk8 : checkRange 3501 499 = true := by decide

/-- Helper: the round-trip check passes on every integer from 1 to
3999. -/
theorem roundTripOk_all (n : Nat) (h1 : 1 ≤ n) (h2 : n ≤ 3999) : roundTripOk n = true := by
  by_cases c1 : n < 501
  · exact checkRange_spec 500 1 checkRange_chunk1 n h1 (by omega)
  by_cases c2 : n < 1001
  · exact checkRange_spec 500 501 checkRange_chunk2 n (by omega) (by omega)
  by_cases c3 : n < 1501
  · exact checkRange_spec 500 1001 checkRange_chunk3 n (by omega) (by omega)
  by_cases c4 : n < 2001
  · exact checkRange_spec 500 1501 checkRange_chunk4 n (by omega) (by omega)
  by_cases c5 : n < 2501
  · exact checkRange_spec 500 2001 checkRange_chunk5 n (by omega) (by omega)
  by_cases c6 : n < 3001
  · exact checkRange_spec 500 2501 checkRange_chunk6 n (by omega) (by omega)
  by_cases c7 : n < 3501
  · exact checkRange_spec 500 3001 checkRange_chunk7 n (by omega) (by omega)
  exact checkRange_spec 499 3501 checkRange_chunk8 n (by omega) (by omega)

/-- Helper: unpacking the boolean round-trip check into the two codec
runs. -/
theorem roundTripOk_spec (n : Nat) (h : roundTripOk n = true) :
    ∃ s, DecimalToRomanConverter.convert (n : Int) = .ok s
      ∧ RomanToDecimalConverter.convert s = .ok (n : Int) := by
  unfold roundTripOk at h
  split at h
  next s heq =>
    split at h
    next m heq2 => exact ⟨s, heq, by rw [heq2, eq_of_beq h]⟩
    next e heq2 => exact Bool.noConfusion h
  next e heq => exact Bool.noConfusion h

/-- Helper: on every integer from 1 to 3999 the decimal encoder succeeds
and the roman decoder inverts it. -/
theorem roundTrip_sound (n : Int) (h1 : 1 ≤ n) (h2 : n ≤ 3999) :
    ∃ s, DecimalToRomanConverter.convert n = .ok s
      ∧ RomanToDecimalConverter.convert s = .ok n := by
  have hn : ((n.toNat : Nat) : Int) = n := Int.toNat_of_nonneg (by omega)
  have h3 : 1 ≤ n.toNat := by omega
  have h4 : n.toNat ≤ 3999 := by omega
  have hok := roundTripOk_spec n.toNat (roundTripOk_all n.toNat h3 h4)
  rw [hn] at hok
  exact hok

/-- Claim C1: for every integer n with 1 <= n <= 3999, decimalToRoman
succeeds on n and romanToDecimal maps its output back to n. -/
theorem decimalToRoman_romanToDecimal_roundtrip (n : Int) (h1 : 1 ≤ n) (h2 : n ≤ 3999) :
    ∃ s, DecimalToRomanConverter.convert n = .ok s
      ∧ RomanToDecimalConverter.convert s = .ok n :=
  roundTrip_sound n h1 h2

/-- Witness for C1 at n = 1994. -/
theorem decimalToRoman_romanToDecimal_roundtrip_witness :
    ∃ s, DecimalToRomanConverter.convert 1994 = .ok s
      ∧ RomanToDecimalConverter.convert s = .ok 1994 :=
  decimalToRoman_romanToDecimal_roundtrip 1994 (by decide) (by decide)

/-- Claim C2: every canonical numeral (an output of decimalToRoman on
some n in range) decodes to an integer that re-encodes to the same
string. -/
theorem canonical_roman_roundtrip (s : PyStr)
    (h : ∃ n : Int, 1 ≤ n ∧ n ≤ 3999 ∧ DecimalToRomanConverter.convert n = .ok s) :
    ∃ m, RomanToDecimalConverter.convert s = .ok m
      ∧ DecimalToRomanConverter.convert m = .ok s := by
  obtain ⟨n, h1, h2, hs⟩ := h
  obtain ⟨s2, hs2, hback⟩ := roundTrip_sound n h1 h2
  rw [hs] at hs2
  cases hs2
  exact ⟨n, hback, hs⟩

/-- Witness for C2 at the canonical numeral MCMXCIV. -/
theorem canonical_roman_roundtrip_witness :
    ∃ m, RomanToDecimalConverter.convert "MCMXCIV".data = .ok m
      ∧ DecimalToRomanConverter.convert m = .ok "MCMXCIV".data :=
  canonical_roman_roundtrip "MCMXCIV".data ⟨1994, by decide, by decide, by decide⟩

/-- Claim C9: ConversionSystem.convert dispatches the conversion type
roman to the roman codec and decimal to the decimal codec, appending
exactly one record tagged with that direction on success and leaving the
history unchanged on codec failure, and fails with UnknownConversionType
on every other conversion type without appending anything. -/
theorem conversion_system_dispatch (v : Value) (h : List PyRecord) (ct : PyStr) :
    (∀ r, NumeralConverter.convertValue .romanToDecimal v = .ok r →
        ConversionSystem.convert v romanTag h
          = (.ok r, ConversionHistory.add_record h v r (.vstr romanTag)))
    ∧ (∀ e, NumeralConverter.convertValue .romanToDecimal v = .error e →
        ConversionSystem.convert v romanTag h = (.error e, h))
    ∧ (∀ r, NumeralConverter.convertValue .decimalToRoman v = .ok r →
        ConversionSystem.convert v decimalTag h
          = (.ok r, ConversionHistory.add_record h v r (.vstr decimalTag)))
    ∧ (∀ e, NumeralConverter.convertValue .decimalToRoman v = .error e →
        ConversionSystem.convert v decimalTag h = (.error e, h))
    ∧ (ct ≠ romanTag → ct ≠ decimalTag →
        ConversionSystem.convert v ct h = (.error .unknownConversionType, h)) := by
  refine ⟨?_, ?_, ?_, ?_, ?_⟩
  · intro r hr
    simp [ConversionSystem.convert, ConverterFactory.get_converter, romanTag, hr]
  · intro e he
    simp [ConversionSystem.convert, ConverterFactory.get_converter, romanTag, he]
  · intro r hr
    simp [ConversionSystem.convert, ConverterFactory.get_converter, decimalTag, hr]
  · intro e he
    simp [ConversionSystem.convert, ConverterFactory.get_converter, decimalTag, he]
  · intro hne1 hne2
    have g1 : ct ≠ "roman".data := by simpa [romanTag] using hne1
    have g2 : ct ≠ "decimal".data := by simpa [decimalTag] using hne2
    simp [ConversionSystem.convert, ConverterFactory.get_converter, g1, g2]

/-- Witness for C9: a roman conversion of XIV appends one roman-tagged
record, and a bogus conversion type fails without appending. -/
theorem conversion_system_dispatch_witness :
    ConversionSystem.convert (.vstr "XIV".data) romanTag []
        = (.ok (.vint 14), ConversionHistory.add_record [] (.vstr "XIV".data) (.vint 14) (.vstr romanTag))
    ∧ ConversionSystem.convert (.vstr "XIV".data) "bogus".data []
        = (.error .unknownConversionType, []) :=
  ⟨(conversion_system_dispatch (.vstr "XIV".data) [] "bogus".data).1 (.vint 14) (by decide),
   (conversion_system_dispatch (.vstr "XIV".data) [] "bogus".data).2.2.2.2 (by decide) (by decide)⟩

/-- Helper: loading rows appends the rows, as string-valued records, in
order. -/
theorem load_from_csv_eq (rows : List CsvRow) :
    ∀ h : List PyRecord,
      ConversionSystem.load_from_csv rows h
        = h ++ rows.map (fun row =>
            { input := .vstr row.input, output := .vstr row.output, rtype := .vstr row.rtype }) := by
  induction rows with
  | nil => intro h; simp [ConversionSystem.load_from_csv]
  | cons row rest ih =>
    intro h
    have step :
        ConversionSystem.load_from_csv (row :: rest) h
          = ConversionSystem.load_from_csv rest
              (ConversionHistory.add_record h (.vstr row.input) (.vstr row.output) (.vstr row.rtype)) := by
      simp [ConversionSystem.load_from_csv]
    rw [step, ih, ConversionHistory.add_record]
    simp

/-- Claim C3 (counterexample): the one-record history produced by a
decimal conversion of 14 is not reproduced exactly by a CSV save and
load into a fresh ledger: the record's input field 14 is an integer, and
it comes back as the string 14. -/
theorem csv_roundtrip_not_exact :
    ConversionSystem.load_from_csv
        (ConversionSystem.save_to_csv ((ConversionSystem.convert (.vint 14) "decimal".data []).2)) []
      ≠ (ConversionSystem.convert (.vint 14) "decimal".data []).2 := by
  decide

/-- Claim C3 (amended): a CSV save and load into a fresh ledger
reproduces the history with the same length and order, with every field
replaced by its str() image; a history whose fields are all strings
(those recordStr fixes) is reproduced exactly. -/
theorem csv_roundtrip_stringified (h : List PyRecord) :
    ConversionSystem.load_from_csv (ConversionSystem.save_to_csv h) [] = h.map recordStr
    ∧ ((∀ r ∈ h, recordStr r = r) →
        ConversionSystem.load_from_csv (ConversionSystem.save_to_csv h) [] = h) := by
  have key : ConversionSystem.load_from_csv (ConversionSystem.save_to_csv h) [] = h.map recordStr := by
    rw [load_from_csv_eq]
    simp only [ConversionSystem.save_to_csv, List.map_map, List.nil_append]
    rfl
  refine ⟨key, fun hall => ?_⟩
  rw [key]
  have : h.map recordStr = h.map id := List.map_congr_left hall
  simpa using this

/-- Witness for C3 at a concrete all-string history. -/
theorem csv_roundtrip_stringified_witness :
    ConversionSystem.load_from_csv
        (ConversionSystem.save_to_csv
          [{ input := .vstr "XIV".data, output := .vstr "14".data, rtype := .vstr "roman".data }]) []
      = [{ input := .vstr "XIV".data, output := .vstr "14".data, rtype := .vstr "roman".data }] :=
  (csv_roundtrip_stringified
    [{ input := .vstr "XIV".data, output := .vstr "14".data, rtype := .vstr "roman".data }]).2
    (by decide)

/-- Helper: appending records allocates them in order at the end of the
store. -/
theorem appendAll_store (rs : List PyRecord) :
    ∀ s, (ConversionHistoryObj.appendAll s rs).store = s.store ++ rs := by
  induction rs with
  | nil => intro s; simp [ConversionHistoryObj.appendAll]
  | cons r rest ih =>
    intro s
    have step :
        ConversionHistoryObj.appendAll s (r :: rest)
          = ConversionHistoryObj.appendAll (ConversionHistoryObj.add_record s r.input r.output r.rtype) rest := by
      simp [ConversionHistoryObj.appendAll]
    rw [step, ih, ConversionHistoryObj.add_record]
    simp

/-- Helper: appending records extends the ledger's address list with the
consecutive fresh addresses. -/
theorem appendAll_hist (rs : List PyRecord) :
    ∀ s, (ConversionHistoryObj.appendAll s rs).hist
        = s.hist ++ List.range' s.store.length rs.length := by
  induction rs with
  | nil => intro s; simp [ConversionHistoryObj.appendAll]
  | cons r rest ih =>
    intro s
    have step :
        ConversionHistoryObj.appendAll s (r :: rest)
          = ConversionHistoryObj.appendAll (ConversionHistoryObj.add_record s r.input r.output r.rtype) rest := by
      simp [ConversionHistoryObj.appendAll]
    rw [step, ih]
    simp [ConversionHistoryObj.add_record, List.range'_succ, List.append_assoc]

/-- Helper: reading every address of a store in order returns the
store. -/
theorem getD_map_range (l : List PyRecord) (d : PyRecord) :
    (List.range l.length).map (fun a => l.getD a d) = l := by
  apply List.ext_getElem
  · simp
  · intro i h1 h2
    simp [List.getD_eq_getElem?_getD, List.getElem?_eq_getElem h2]

/-- Claim C8 (counterexample): get_history returns a shallow copy: the
snapshot of a one-record ledger contains the address of the record, and
mutating that record through the snapshot changes what the ledger's own
records (and hence any later snapshot) hold, so the snapshot is not an
independent copy of the records. -/
theorem snapshot_shallow_copy_cex :
    0 ∈ ConversionHistoryObj.get_history
          (ConversionHistoryObj.add_record ConversionHistoryObj.empty
            (.vstr "XIV".data) (.vint 14) (.vstr romanTag))
    ∧ ConversionHistoryObj.deref
          (ConversionHistoryObj.setRecord
            (ConversionHistoryObj.add_record ConversionHistoryObj.empty
              (.vstr "XIV".data) (.vint 14) (.vstr romanTag))
            0 { input := .vstr "MUT".data, output := .vint 14, rtype := .vstr romanTag })
          (ConversionHistoryObj.get_history
            (ConversionHistoryObj.setRecord
              (ConversionHistoryObj.add_record ConversionHistoryObj.empty
                (.vstr "XIV".data) (.vint 14) (.vstr romanTag))
              0 { input := .vstr "MUT".data, output := .vint 14, rtype := .vstr romanTag }))
        ≠ ConversionHistoryObj.deref
            (ConversionHistoryObj.add_record ConversionHistoryObj.empty
              (.vstr "XIV".data) (.vint 14) (.vstr romanTag))
            (ConversionHistoryObj.get_history
              (ConversionHistoryObj.add_record ConversionHistoryObj.empty
                (.vstr "XIV".data) (.vint 14) (.vstr romanTag))) := by
  decide

/-- Claim C8 (amended): appending k records to a fresh ledger and taking
a snapshot yields exactly those k records in insertion order (the
snapshot list itself is a fresh copy at the list level, so reshaping it
cannot reach the ledger; the records it points to are shared, as the
counterexample shows). -/
theorem snapshot_length_and_order (rs : List PyRecord) :
    ConversionHistoryObj.deref (ConversionHistoryObj.appendAll ConversionHistoryObj.empty rs)
        (ConversionHistoryObj.get_history (ConversionHistoryObj.appendAll ConversionHistoryObj.empty rs))
      = rs
    ∧ (ConversionHistoryObj.get_history
        (ConversionHistoryObj.appendAll ConversionHistoryObj.empty rs)).length = rs.length := by
  have hstore : (ConversionHistoryObj.appendAll ConversionHistoryObj.empty rs).store = rs := by
    simpa [ConversionHistoryObj.empty] using appendAll_store rs ConversionHistoryObj.empty
  have hhist : (ConversionHistoryObj.appendAll ConversionHistoryObj.empty rs).hist
      = List.range rs.length := by
    have := appendAll_hist rs ConversionHistoryObj.empty
    simpa [ConversionHistoryObj.empty, List.range_eq_range'] using this
  constructor
  · rw [ConversionHistoryObj.deref, ConversionHistoryObj.get_history, hhist, hstore]
    exact getD_map_range rs _
  · rw [ConversionHistoryObj.get_history, hhist]
    simp

/-- Helper: a list is a prefix of itself followed by anything. -/
theorem isPrefixOf_append_self (s r : PyStr) : s.isPrefixOf (s ++ r) = true := by
  induction s with
  | nil => cases r <;> rfl
  | cons c t ih => simp [List.isPrefixOf, ih]

/-- Helper: a prefix test fails when the head characters differ. -/
theorem isPrefixOf_cons_of_ne (a : Char) (s : PyStr) (b : Char) (r : PyStr) (h : a ≠ b) :
    (a :: s).isPrefixOf (b :: r) = false := by
  simp [List.isPrefixOf, h]

/-- Helper: substring containment of a single character is membership. -/
theorem containsSub_singleton (a : Char) (s : PyStr) : containsSub [a] s = true ↔ a ∈ s := by
  induction s with
  | nil => simp [containsSub]
  | cons c rest ih =>
    simp [containsSub, List.isPrefixOf, ih, List.mem_cons]

/-- Helper: a separator whose first character avoids a string cannot
start inside it. -/
theorem containsSub_append_left (sp : Char) (sep : PyStr) (s1 s2 : PyStr)
    (h : ∀ c ∈ s1, c ≠ sp) :
    containsSub (sp :: sep) (s1 ++ s2) = containsSub (sp :: sep) s2 := by
  induction s1 with
  | nil => simp
  | cons c t ih =>
    have hc : (sp == c) = false := by
      have hne : sp ≠ c := (h c (List.mem_cons_self c t)).symm
      simp [hne]
    have ht := ih (fun d hd => h d (List.mem_cons_of_mem c hd))
    simp [List.cons_append, containsSub, List.isPrefixOf, hc, ht]

/-- Helper: the split scan does not depend on the iteration bound once
the bound covers the string length. -/
theorem pySplitAux_fuel (sep : PyStr) (hsep : sep ≠ []) :
    ∀ f1 (s acc : PyStr) (f2 : Nat), s.length ≤ f1 → s.length ≤ f2 →
      pySplitAux sep f1 s acc = pySplitAux sep f2 s acc := by
  intro f1
  induction f1 with
  | zero =>
    intro s acc f2 hl1 _
    have hs : s = [] := List.length_eq_zero.mp (Nat.le_zero.mp hl1)
    subst hs
    simp [pySplitAux]
  | succ f ih =>
    intro s acc f2 hl1 hl2
    cases s with
    | nil => simp [pySplitAux]
    | cons c rest =>
      simp only [List.length_cons] at hl1 hl2
      cases f2 with
      | zero => omega
      | succ g =>
        have hsl : 0 < sep.length := List.length_pos.mpr hsep
        simp only [pySplitAux]
        by_cases hp : sep.isPrefixOf (c :: rest) = true
        · rw [if_pos hp, if_pos hp]
          have hd1 : (List.drop sep.length (c :: rest)).length ≤ f := by
            rw [List.length_drop]; simp only [List.length_cons]; omega
          have hd2 : (List.drop sep.length (c :: rest)).length ≤ g := by
            rw [List.length_drop]; simp only [List.length_cons]; omega
          rw [ih _ [] g hd1 hd2]
        · rw [if_neg hp, if_neg hp]
          exact ih rest (c :: acc) g (by omega) (by omega)

/-- Helper: a string with no occurrence of the separator splits into one
piece. -/
theorem pySplitAux_no_sep (sep : PyStr) :
    ∀ (s : PyStr) (fuel : Nat) (acc : PyStr), containsSub sep s = false → s.length ≤ fuel →
      pySplitAux sep fuel s acc = [acc.reverse ++ s] := by
  intro s
  induction s with
  | nil => intro fuel acc _ _; simp [pySplitAux]
  | cons c rest ih =>
    intro fuel acc hno hlen
    simp only [List.length_cons] at hlen
    cases fuel with
    | zero => omega
    | succ f =>
      have hsplit : sep.isPrefixOf (c :: rest) = false ∧ containsSub sep rest = false := by
        have := hno
        simp only [containsSub, Bool.or_eq_false_iff] at this
        exact this
      simp only [pySplitAux]
      rw [if_neg (by simp [hsplit.1])]
      rw [ih f (c :: acc) hsplit.2 (by omega)]
      simp

/-- Helper: splitting a string of the shape left ++ separator ++ right,
where the separator's first character does not occur in left, cuts
exactly at the separator. -/
theorem pySplitAux_boundary (sp : Char) (sep' : PyStr) :
    ∀ (i r : PyStr) (fuel : Nat) (acc : PyStr),
      (∀ c ∈ i, c ≠ sp) → (i ++ (sp :: sep') ++ r).length ≤ fuel →
      pySplitAux (sp :: sep') fuel (i ++ (sp :: sep') ++ r) acc
        = (acc.reverse ++ i) :: pySplit (sp :: sep') r := by
  intro i
  induction i with
  | nil =>
    intro r fuel acc _ hlen
    simp only [List.nil_append] at hlen ⊢
    simp only [List.length_append, List.length_cons] at hlen
    cases fuel with
    | zero => omega
    | succ f =>
      have hpre : (sp :: sep').isPrefixOf ((sp :: sep') ++ r) = true :=
        isPrefixOf_append_self (sp :: sep') r
      have hshape : (sp :: sep') ++ r = sp :: (sep' ++ r) := rfl
      rw [hshape] at hpre
      simp only [List.cons_append, pySplitAux, List.append_eq]
      rw [if_pos hpre]
      have hdrop : List.drop (sp :: sep').length (sp :: (sep' ++ r)) = r := by
        simp [List.drop_left (sp :: sep') r]
      rw [hdrop]
      rw [pySplitAux_fuel (sp :: sep') (by simp) f r [] r.length (by omega) (le_refl _)]
      simp [pySplit]
  | cons c t ih =>
    intro r fuel acc hsafe hlen
    simp only [List.cons_append, List.length_cons] at hlen ⊢
    cases fuel with
    | zero => omega
    | succ f =>
      have hc : sp ≠ c := (hsafe c (List.mem_cons_self c t)).symm
      simp only [pySplitAux, List.append_eq]
      rw [if_neg (by simp [isPrefixOf_cons_of_ne sp sep' c _ hc])]
      rw [ih r f (c :: acc) (fun d hd => hsafe d (List.mem_cons_of_mem c hd)) (by omega)]
      simp

/-- Helper: pySplit at a separator boundary. -/
theorem pySplit_boundary (sp : Char) (sep' : PyStr) (i r : PyStr) (h : ∀ c ∈ i, c ≠ sp) :
    pySplit (sp :: sep') (i ++ ((sp :: sep') ++ r)) = i :: pySplit (sp :: sep') r := by
  rw [← List.append_assoc]
  have hb := pySplitAux_boundary sp sep' i r (i ++ (sp :: sep') ++ r).length [] h (le_refl _)
  simpa [pySplit] using hb

/-- Helper: pySplit on a string with no occurrence of the separator. -/
theorem pySplit_no_sep (sep s : PyStr) (h : containsSub sep s = false) :
    pySplit sep s = [s] := by
  have hb := pySplitAux_no_sep sep s s.length [] h (le_refl _)
  simpa [pySplit] using hb

/-- Helper: stripping a line that starts with a non-space character and
ends in a closing parenthesis and a newline removes exactly the
newline. -/
theorem pyStrip_line (c : Char) (m : PyStr) (h : pyIsSpace c = false) :
    pyStrip ((c :: m) ++ [')', '\n']) = (c :: m) ++ [')'] := by
  unfold pyStrip
  have h1 : List.dropWhile pyIsSpace ((c :: m) ++ [')', '\n']) = (c :: m) ++ [')', '\n'] := by
    simp [List.dropWhile_cons, h]
  rw [h1]
  have h2 : ((c :: m) ++ [')', '\n']).reverse = '\n' :: ')' :: (c :: m).reverse := by
    simp
  rw [h2]
  have h3 : List.dropWhile pyIsSpace ('\n' :: ')' :: (c :: m).reverse) = ')' :: (c :: m).reverse := by
    rw [List.dropWhile_cons, if_pos (by decide), List.dropWhile_cons, if_neg (by decide)]
  rw [h3]
  simp

/-- Helper: file iteration cuts a newline-free body followed by a
newline as one line. -/
theorem pyLinesGo_line (body : PyStr) :
    ∀ (rest acc : PyStr), (∀ c ∈ body, c ≠ '\n') →
      pyLinesGo (body ++ '\n' :: rest) acc
        = ((acc.reverse ++ body) ++ ['\n']) :: pyLinesGo rest [] := by
  induction body with
  | nil => intro rest acc _; simp [pyLinesGo]
  | cons c t ih =>
    intro rest acc h
    have hc : (c == '\n') = false := by
      have := h c (List.mem_cons_self c t)
      simp [this]
    simp only [List.cons_append, pyLinesGo, hc, List.append_eq]
    rw [if_neg (by simp), ih rest (c :: acc) (fun d hd => h d (List.mem_cons_of_mem c hd))]
    simp

/-- Helper: the first line of a file whose first line body has no
newline. -/
theorem pyLines_cons (body rest : PyStr) (h : ∀ c ∈ body, c ≠ '\n') :
    pyLines ((body ++ ['\n']) ++ rest) = (body ++ ['\n']) :: pyLines rest := by
  unfold pyLines
  have hshape : (body ++ ['\n']) ++ rest = body ++ '\n' :: rest := by simp
  rw [hshape, pyLinesGo_line body rest [] h]
  simp

/-- Helper: a line without an arrow is skipped and appends nothing. -/
theorem processTxtLine_skip (acc : List PyRecord) (line : PyStr)
    (h : containsSub ['→'] line = false) :
    processTxtLine acc line = .ok acc := by
  simp [processTxtLine, h]

/-- Helper: the arrow separator as an explicit character list. -/
theorem sepArrow_cons : sepArrow = ' ' :: ['→', ' '] := by decide

/-- Helper: the parenthesis separator as an explicit character list. -/
theorem sepParen_cons : sepParen = ' ' :: ['('] := by decide

/-- Helper: parsing one well-formed saved line appends exactly one
record: in written order under the Roman→Decimal label and swapped
otherwise. -/
theorem processTxtLine_parsed (h : List PyRecord) (i o label : PyStr)
    (hiNe : i ≠ []) (hiSp : ∀ c ∈ i, pyIsSpace c = false)
    (hoSp : ∀ c ∈ o, pyIsSpace c = false)
    (hlab : label = labelRoman ∨ label = labelDecimal) :
    processTxtLine h (i ++ sepArrow ++ o ++ sepParen ++ label ++ [')', '\n'])
      = .ok (if containsSub labelRoman label
             then ConversionHistory.add_record h (.vstr i) (.vstr o) (.vstr romanTag)
             else ConversionHistory.add_record h (.vstr o) (.vstr i) (.vstr decimalTag)) := by
  have hiNoSp : ∀ c ∈ i, c ≠ ' ' := by
    intro c hc heq
    have h2 := hiSp c hc
    rw [heq] at h2
    exact absurd h2 (by decide)
  have hoNoSp : ∀ c ∈ o, c ≠ ' ' := by
    intro c hc heq
    have h2 := hoSp c hc
    rw [heq] at h2
    exact absurd h2 (by decide)
  obtain ⟨ci, it, rfl⟩ : ∃ ci it, i = ci :: it := by
    cases i with
    | nil => exact absurd rfl hiNe
    | cons a b => exact ⟨a, b, rfl⟩
  have harrow :
      containsSub ['→'] ((ci :: it) ++ sepArrow ++ o ++ sepParen ++ label ++ [')', '\n']) = true := by
    rw [containsSub_singleton]
    have hmem : '→' ∈ sepArrow := by decide
    simp [List.mem_append, hmem]
  have hspace_ci : pyIsSpace ci = false := hiSp ci (List.mem_cons_self ci it)
  have hline :
      (ci :: it) ++ sepArrow ++ o ++ sepParen ++ label ++ [')', '\n']
        = (ci :: (it ++ sepArrow ++ o ++ sepParen ++ label)) ++ [')', '\n'] := by
    simp [List.append_assoc]
  have hstrip :
      pyStrip ((ci :: it) ++ sepArrow ++ o ++ sepParen ++ label ++ [')', '\n'])
        = (ci :: it) ++ (sepArrow ++ (o ++ (sepParen ++ (label ++ [')'])))) := by
    rw [hline, pyStrip_line ci _ hspace_ci]
    simp [List.append_assoc]
  have hno1 : containsSub (' ' :: ['→', ' ']) (o ++ (sepParen ++ (label ++ [')']))) = false := by
    rw [containsSub_append_left ' ' ['→', ' '] o _ hoNoSp]
    rcases hlab with hl | hl <;> (subst hl; decide)
  have hsplit1 :
      pySplit sepArrow ((ci :: it) ++ (sepArrow ++ (o ++ (sepParen ++ (label ++ [')'])))))
        = [ci :: it, o ++ (sepParen ++ (label ++ [')']))] := by
    rw [sepArrow_cons, pySplit_boundary ' ' ['→', ' '] (ci :: it) _ hiNoSp,
      pySplit_no_sep _ _ hno1]
  have hno2 : containsSub (' ' :: ['(']) (label ++ [')']) = false := by
    rcases hlab with hl | hl <;> (subst hl; decide)
  have hsplit2 :
      pySplit sepParen (o ++ (sepParen ++ (label ++ [')'])))
        = [o, label ++ [')']] := by
    rw [sepParen_cons, pySplit_boundary ' ' ['('] o _ hoNoSp,
      pySplit_no_sep _ _ hno2]
  have hrstrip : pyRstripChar ')' (label ++ [')']) = label := by
    rcases hlab with hl | hl <;> (subst hl; decide)
  simp only [processTxtLine, harrow, if_true, hstrip, hsplit1, hsplit2, hrstrip]
  split <;> rfl

/-- Helper: one saved record line parses back to the reloaded record. -/
theorem processTxtLine_record (h : List PyRecord) (r : PyRecord) (hr : SafeRecord r) :
    processTxtLine h (recordTxtLine r) = .ok (h ++ [txtReload r]) := by
  obtain ⟨⟨i, hin, hiNe, hiSp⟩, ⟨o, hout, hoNe, hoSp⟩, hty⟩ := hr
  have hlineEq :
      recordTxtLine r = i ++ sepArrow ++ o ++ sepParen ++ directionLabel r ++ [')', '\n'] := by
    simp [recordTxtLine, hin, hout, pythonStr]
  rcases hty with hty | hty
  · have hlabel : directionLabel r = labelRoman := by simp [directionLabel, hty]
    rw [hlineEq, hlabel,
      processTxtLine_parsed h i o labelRoman hiNe hiSp hoSp (Or.inl rfl)]
    have hcont : containsSub labelRoman labelRoman = true := by decide
    rw [if_pos hcont]
    simp [txtReload, hty, hin, hout, pythonStr, ConversionHistory.add_record]
  · have hlabel : directionLabel r = labelDecimal := by
      have hne : r.rtype ≠ Value.vstr romanTag := by rw [hty]; decide
      simp [directionLabel, hne]
    rw [hlineEq, hlabel,
      processTxtLine_parsed h i o labelDecimal hiNe hiSp hoSp (Or.inr rfl)]
    have hcont : containsSub labelRoman labelDecimal = false := by decide
    rw [if_neg (by simp [hcont])]
    have hne : r.rtype ≠ Value.vstr romanTag := by rw [hty]; decide
    have hneTag : decimalTag ≠ romanTag := by decide
    simp [txtReload, hne, hneTag, hty, hin, hout, pythonStr, ConversionHistory.add_record]

/-- Helper: a saved record line is a newline-terminated line whose body
has no newline. -/
theorem recordTxtLine_shape (r : PyRecord) (hr : SafeRecord r) :
    ∃ body, recordTxtLine r = body ++ ['\n'] ∧ ∀ c ∈ body, c ≠ '\n' := by
  obtain ⟨⟨i, hin, hiNe, hiSp⟩, ⟨o, hout, hoNe, hoSp⟩, hty⟩ := hr
  refine ⟨i ++ (sepArrow ++ (o ++ (sepParen ++ (directionLabel r ++ [')'])))), ?_, ?_⟩
  · simp [recordTxtLine, hin, hout, pythonStr, List.append_assoc]
  · have hsep1 : ∀ c ∈ sepArrow, c ≠ '\n' := by decide
    have hsep2 : ∀ c ∈ sepParen, c ≠ '\n' := by decide
    have hlabel : ∀ c ∈ directionLabel r, c ≠ '\n' := by
      rcases hty with hty | hty
      · simp only [directionLabel, hty, if_pos]
        decide
      · have hne : r.rtype ≠ Value.vstr romanTag := by rw [hty]; decide
        simp only [directionLabel, if_neg hne]
        decide
    have hi : ∀ c ∈ i, c ≠ '\n' := by
      intro c hc heq
      have h2 := hiSp c hc
      rw [heq] at h2
      exact absurd h2 (by decide)
    have ho : ∀ c ∈ o, c ≠ '\n' := by
      intro c hc heq
      have h2 := hoSp c hc
      rw [heq] at h2
      exact absurd h2 (by decide)
    intro c hc
    simp only [List.mem_append, or_assoc] at hc
    rcases hc with hc | hc | hc | hc | hc | hc
    · exact hi c hc
    · exact hsep1 c hc
    · exact ho c hc
    · exact hsep2 c hc
    · exact hlabel c hc
    · have hc' : c = ')' := by simpa using hc
      subst hc'
      decide

/-- Helper: loading the concatenated saved lines of a safe history
appends exactly the reloaded records, in order. -/
theorem loadTxtGo_map (hs : List PyRecord) :
    ∀ acc : List PyRecord, (∀ r ∈ hs, SafeRecord r) →
      loadTxtGo (pyLines ((hs.map recordTxtLine).flatten)) acc
        = .ok (acc ++ hs.map txtReload) := by
  induction hs with
  | nil => intro acc _; simp [pyLines, pyLinesGo, loadTxtGo]
  | cons r rest ih =>
    intro acc hall
    have hr := hall r (List.mem_cons_self r rest)
    obtain ⟨body, hbody, hbodyNoNl⟩ := recordTxtLine_shape r hr
    have hflat :
        ((r :: rest).map recordTxtLine).flatten
          = (body ++ ['\n']) ++ (rest.map recordTxtLine).flatten := by
      simp [hbody]
    rw [hflat, pyLines_cons body _ hbodyNoNl]
    have hstep : processTxtLine acc (body ++ ['\n']) = .ok (acc ++ [txtReload r]) := by
      rw [← hbody]
      exact processTxtLine_record acc r hr
    simp only [loadTxtGo, hstep]
    rw [ih (acc ++ [txtReload r]) (fun d hd => hall d (List.mem_cons_of_mem r hd))]
    simp

/-- Claim C4 (counterexample): the one-record history produced by a
roman conversion of XIV is not reproduced with its roman-direction
record unchanged by a TXT save and load into a fresh ledger: the
record's output 14 is an integer and comes back as the string 14. -/
theorem txt_roundtrip_not_exact :
    ConversionSystem.load_from_txt
        (ConversionSystem.save_to_txt ((ConversionSystem.convert (.vstr "XIV".data) "roman".data []).2)) []
      ≠ .ok ((ConversionSystem.convert (.vstr "XIV".data) "roman".data []).2) := by
  decide

/-- Claim C4 (amended): for every history of records with string input
and output fields that are nonempty and whitespace-free and a direction
tag roman or decimal, a TXT save and load into a fresh ledger reproduces
every roman-direction record unchanged and every decimal-direction
record with input and output swapped — exactly this asymmetry; records
with integer fields come back with those fields as their str() image
instead. -/
theorem txt_roundtrip_swap_quirk :
    (∀ h : List PyRecord, (∀ r ∈ h, SafeRecord r) →
        ConversionSystem.load_from_txt (ConversionSystem.save_to_txt h) []
          = .ok (h.map txtReload))
    ∧ (∀ r : PyRecord, SafeRecord r → r.rtype = .vstr romanTag → txtReload r = r)
    ∧ (∀ r : PyRecord, SafeRecord r → r.rtype = .vstr decimalTag →
        txtReload r = { input := r.output, output := r.input, rtype := r.rtype }) := by
  refine ⟨?_, ?_, ?_⟩
  · intro h hall
    unfold ConversionSystem.load_from_txt ConversionSystem.save_to_txt
    have htx : txtHeader
        = ("Conversion History:".data ++ ['\n']) ++ ("==================".data ++ ['\n']) := by
      decide
    rw [htx, List.append_assoc]
    rw [pyLines_cons "Conversion History:".data _ (by decide)]
    rw [pyLines_cons "==================".data _ (by decide)]
    have h1 : processTxtLine [] ("Conversion History:".data ++ ['\n']) = .ok [] :=
      processTxtLine_skip [] _ (by decide)
    have h2 : processTxtLine [] ("==================".data ++ ['\n']) = .ok [] :=
      processTxtLine_skip [] _ (by decide)
    simp only [loadTxtGo, h1, h2]
    simpa using loadTxtGo_map h [] hall
  · intro r hr hty
    obtain ⟨⟨i, hin, hiS⟩, ⟨o, hout, hoS⟩, hd⟩ := hr
    cases r with
    | mk a b c =>
      dsimp only at hin hout hty
      subst hin
      subst hout
      subst hty
      simp [txtReload, pythonStr]
  · intro r hr hty
    obtain ⟨⟨i, hin, hiS⟩, ⟨o, hout, hoS⟩, hd⟩ := hr
    cases r with
    | mk a b c =>
      dsimp only at hin hout hty
      subst hin
      subst hout
      subst hty
      have hne : Value.vstr decimalTag ≠ Value.vstr romanTag := by decide
      simp [txtReload, pythonStr, hne]

/-- Witness for C4 at a concrete two-record history: the roman record is
reproduced unchanged, the decimal record comes back swapped. -/
theorem txt_roundtrip_swap_quirk_witness :
    ConversionSystem.load_from_txt
        (ConversionSystem.save_to_txt
          [{ input := .vstr "XIV".data, output := .vstr "14".data, rtype := .vstr romanTag },
           { input := .vstr "9".data, output := .vstr "IX".data, rtype := .vstr decimalTag }]) []
      = .ok [{ input := .vstr "XIV".data, output := .vstr "14".data, rtype := .vstr romanTag },
             { input := .vstr "IX".data, output := .vstr "9".data, rtype := .vstr decimalTag }] := by
  rw [txt_roundtrip_swap_quirk.1
    [{ input := .vstr "XIV".data, output := .vstr "14".data, rtype := .vstr romanTag },
     { input := .vstr "9".data, output := .vstr "IX".data, rtype := .vstr decimalTag }]
    (by
      intro r hr
      simp only [List.mem_cons, List.not_mem_nil, or_false] at hr
      rcases hr with rfl | rfl
      · exact ⟨⟨"XIV".data, rfl, by decide, by decide⟩,
          ⟨"14".data, rfl, by decide, by decide⟩, Or.inl rfl⟩
      · exact ⟨⟨"9".data, rfl, by decide, by decide⟩,
          ⟨"IX".data, rfl, by decide, by decide⟩, Or.inr rfl⟩)]
  decide
